import Mathlib

/-!
Verification of the HTML → JIRA markup converter of this repository.

The converter under verification is `html_to_jira_markup` in `src/conv.py`
(the tree-walking transducer built on a BeautifulSoup DOM), together with
the degraded-fallback entry point `html_to_jira_markup` of `src/3.py`
(its `try/except` wrapper and the `soup.get_text(separator='\n', strip=True)`
fallback).

The external HTML parser is a collaborator: it hands the converter a tree
of element and text nodes.  We embed that tree as the inductive type `Node`
and embed each Python function over it.  The recursive walk
(`process_element` / `process_list_item` / `process_table`) is embedded
with an explicit fuel argument that falls by one at every mutual call; the
top-level wrapper supplies `2 * size + 2` fuel, which exceeds the length of
any chain of mutual calls over the given tree (each call either descends at
least one tree level or is the single same-node `process_element` →
`process_table` hand-off).  All definitions are structurally recursive, so
they evaluate by `rfl`/`decide` on concrete trees.
-/

set_option linter.unusedVariables false

/-! ## Python string primitives -/

/-- The ASCII whitespace characters recognised by Python's `str.strip()`. -/
def isPySpace (c : Char) : Bool :=
  c = ' ' || c = '\t' || c = '\n' || c = '\r' || c = '\x0b' || c = '\x0c'

/-- Remove the trailing run of characters satisfying `p`
(the right-hand half of Python's `str.strip()`). -/
def dropTrailing (p : Char → Bool) : List Char → List Char
  | [] => []
  | c :: rest =>
    let r := dropTrailing p rest
    if r.isEmpty && p c then [] else c :: r

/-- Python's `str.strip()` on a character list: drop leading and trailing
whitespace. -/
def stripChars (l : List Char) : List Char :=
  dropTrailing isPySpace (l.dropWhile isPySpace)

/-- Python's `str.strip()`. -/
def pyStrip (s : String) : String := ⟨stripChars s.data⟩

/-- One pass of `re.sub(r'\n{3,}', '\n\n', ·)` over a character list:
`n` counts the newlines read but not yet emitted; a maximal run of three or
more newlines is emitted as exactly two. -/
def collapseAux : List Char → Nat → List Char
  | [], n => List.replicate (min n 2) '\n'
  | c :: rest, n =>
    if c = '\n' then collapseAux rest (n + 1)
    else List.replicate (min n 2) '\n' ++ c :: collapseAux rest 0

/-- `re.sub(r'\n{3,}', '\n\n', s)`: collapse every run of three or more
consecutive newlines to exactly two. -/
def collapseNewlines (s : String) : String := ⟨collapseAux s.data 0⟩

/-- Does the character list contain three consecutive newline characters? -/
def hasTripleNL : List Char → Bool
  | a :: b :: c :: rest => (a = '\n' && b = '\n' && c = '\n') || hasTripleNL (b :: c :: rest)
  | _ => false

/-- Python's `s.split('\n')` helper: split the characters at each newline;
`acc` holds the current field reversed. -/
def splitNLAux : List Char → List Char → List String
  | [], acc => [String.mk acc.reverse]
  | c :: rest, acc =>
    if c = '\n' then String.mk acc.reverse :: splitNLAux rest []
    else splitNLAux rest (c :: acc)

/-- Python's `s.split('\n')`: split on every newline, keeping empty fields
(`"".split('\n') == ['']`). -/
def splitNL (s : String) : List String := splitNLAux s.data []

/-- The list does not start with a whitespace character. -/
def headOK (l : List Char) : Bool :=
  match l.head? with
  | some c => !isPySpace c
  | none => true

/-- The list does not end with a whitespace character. -/
def lastOK (l : List Char) : Bool :=
  match l.getLast? with
  | some c => !isPySpace c
  | none => true

/-! ## The DOM tree supplied by the parser collaborator -/

/-- A parsed HTML node: a `NavigableString` text node, or a tag element with
its name, attribute list and ordered children. -/
inductive Node where
  | text : String → Node
  | elem : String → List (String × String) → List Node → Node

/-- `element.name`: `None` for a `NavigableString`, the tag name for a tag. -/
def nodeName : Node → Option String
  | .text _ => none
  | .elem t _ _ => some t

/-- `element.children` (a text node has none). -/
def childrenOf : Node → List Node
  | .text _ => []
  | .elem _ _ cs => cs

/-- The attribute list of a node (a text node has none). -/
def attrsOf : Node → List (String × String)
  | .text _ => []
  | .elem _ a _ => a

/-- First-match attribute lookup, as the parser's attribute dictionary. -/
def getAttr : List (String × String) → String → Option String
  | [], _ => none
  | (k, v) :: rest, key => if k = key then some v else getAttr rest key

/-- `element.get(key, default)`. -/
def getAttrD (n : Node) (key d : String) : String :=
  (getAttr (attrsOf n) key).getD d

mutual
/-- Number of nodes of a tree (used only to provision fuel). -/
def Node.size : Node → Nat
  | .text _ => 1
  | .elem _ _ cs => 1 + Node.sizeList cs
/-- Number of nodes of a forest. -/
def Node.sizeList : List Node → Nat
  | [] => 0
  | c :: rest => Node.size c + Node.sizeList rest
end

mutual
/-- The raw strings of all descendant text nodes, in document order
(BeautifulSoup's `element.strings`). -/
def nodeStrings : Node → List String
  | .text s => [s]
  | .elem _ _ cs => nodeStringsList cs
/-- `nodeStrings` over a forest. -/
def nodeStringsList : List Node → List String
  | [] => []
  | c :: rest => nodeStrings c ++ nodeStringsList rest
end

/-- `element.get_text()`: concatenation of all descendant strings. -/
def getText (n : Node) : String := String.join (nodeStrings n)

mutual
/-- The matching nodes among `n` itself and its descendants, in document
order (helper for `find_all`). -/
def findAllSelf (p : String → Bool) : Node → List Node
  | .text _ => []
  | .elem t a cs => (if p t then [Node.elem t a cs] else []) ++ findAllList p cs
/-- The matching nodes among a forest's members and their descendants, in
document order. -/
def findAllList (p : String → Bool) : List Node → List Node
  | [] => []
  | n :: rest => findAllSelf p n ++ findAllList p rest
end

/-- `element.find_all(p)`: matching proper descendants in document order. -/
def findAllDesc (p : String → Bool) : Node → List Node
  | .text _ => []
  | .elem _ _ cs => findAllList p cs

/-! ## The recursive walk of `src/conv.py` -/

mutual
/-- `process_element(element, list_type, list_level)` from `src/conv.py`,
with fuel.  Branches follow the source's `elif` chain; the
`div/span/body/html` branch and the final catch-all have identical bodies in
the source ("process children") and are embedded as the single final
catch-all. -/
def processElement : Nat → Option Char → Nat → Node → String
  | 0, _, _, _ => ""
  | f + 1, listType, listLevel, e =>
    match e with
    | .text s =>
      -- NavigableString: verbatim if it has non-whitespace content, else ''.
      if pyStrip s ≠ "" then s else ""
    | .elem tag attrs children =>
      if tag = "h1" ∨ tag = "h2" ∨ tag = "h3" ∨ tag = "h4" ∨ tag = "h5" ∨ tag = "h6" then
        let content := String.join (children.map (fun c => processElement f none 0 c))
        "h" ++ tag.drop 1 ++ ". " ++ pyStrip content ++ "\n\n"
      else if tag = "b" ∨ tag = "strong" then
        let content := String.join (children.map (fun c => processElement f none 0 c))
        "*" ++ content ++ "*"
      else if tag = "i" ∨ tag = "em" then
        let content := String.join (children.map (fun c => processElement f none 0 c))
        "_" ++ content ++ "_"
      else if tag = "u" then
        let content := String.join (children.map (fun c => processElement f none 0 c))
        "+" ++ content ++ "+"
      else if tag = "s" ∨ tag = "strike" ∨ tag = "del" then
        let content := String.join (children.map (fun c => processElement f none 0 c))
        "-" ++ content ++ "-"
      else if tag = "code" then
        let content := String.join (children.map (fun c => processElement f none 0 c))
        "\x7b" ++ content ++ "\x7d"
      else if tag = "pre" then
        "\x7bcode\x7d\n" ++ getText e ++ "\n\x7bcode\x7d\n\n"
      else if tag = "a" then
        let href := getAttrD e "href" ""
        let content := String.join (children.map (fun c => processElement f none 0 c))
        if href ≠ "" then "[" ++ pyStrip content ++ "|" ++ href ++ "]" else content
      else if tag = "img" then
        -- `alt` is fetched by the source but never used for output.
        let src := getAttrD e "src" ""
        if src ≠ "" then "!" ++ src ++ "!" else ""
      else if tag = "p" then
        let content := String.join (children.map (fun c => processElement f none 0 c))
        pyStrip content ++ "\n\n"
      else if tag = "br" then "\n"
      else if tag = "hr" then "----\n\n"
      else if tag = "blockquote" then
        let content := String.join (children.map (fun c => processElement f none 0 c))
        String.join ((splitNL (pyStrip content)).map
          (fun line => if pyStrip line ≠ "" then "bq. " ++ pyStrip line ++ "\n" else "")) ++ "\n"
      else if tag = "ul" then
        String.join (children.map (fun c =>
          if nodeName c = some "li" then processListItem f '*' listLevel c else ""))
      else if tag = "ol" then
        String.join (children.map (fun c =>
          if nodeName c = some "li" then processListItem f '#' listLevel c else ""))
      else if tag = "table" then
        processTable f e
      else
        String.join (children.map (fun c => processElement f listType listLevel c))
termination_by structural f => f

/-- `process_list_item(li, marker, level)` from `src/conv.py`, with fuel. -/
def processListItem : Nat → Char → Nat → Node → String
  | 0, _, _, _ => ""
  | f + 1, marker, level, li =>
    let pref := String.mk (List.replicate (level + 1) marker)
    let parts := (childrenOf li).map (fun child =>
      if nodeName child = some "ul" then
        String.join (((childrenOf child).filter (fun n => nodeName n = some "li")).map
          (fun nested => "\n" ++ processListItem f '*' (level + 1) nested))
      else if nodeName child = some "ol" then
        String.join (((childrenOf child).filter (fun n => nodeName n = some "li")).map
          (fun nested => "\n" ++ processListItem f '#' (level + 1) nested))
      else
        processElement f (some marker) level child)
    pref ++ " " ++ pyStrip (String.join parts) ++ "\n"
termination_by structural f => f

/-- `process_table(table)` from `src/conv.py`, with fuel. -/
def processTable : Nat → Node → String
  | 0, _ => ""
  | f + 1, table =>
    let renderCell := fun (cell : Node) =>
      pyStrip (String.join ((childrenOf cell).map (fun c => processElement f none 0 c)))
    let headerRows := (findAllDesc (fun s => s = "thead") table).flatMap (fun thead =>
      (findAllDesc (fun s => s = "tr") thead).filterMap (fun tr =>
        let cells := (findAllDesc (fun s => s = "th" || s = "td") tr).map renderCell
        if cells.isEmpty then none
        else some ("||" ++ String.intercalate "||" cells ++ "||")))
    let bodyRows := (findAllDesc (fun s => s = "tbody") table).flatMap (fun tbody =>
      (findAllDesc (fun s => s = "tr") tbody).filterMap (fun tr =>
        let cells := (findAllDesc (fun s => s = "td" || s = "th") tr).map renderCell
        if cells.isEmpty then none
        else some ("|" ++ String.intercalate "|" cells ++ "|")))
    let rows := headerRows ++ bodyRows
    let allRows :=
      if rows.isEmpty then
        ((childrenOf table).filter (fun n => nodeName n = some "tr")).filterMap (fun tr =>
          let hasTh := !(findAllDesc (fun s => s = "th") tr).isEmpty
          let cells := (findAllDesc (fun s => s = "td" || s = "th") tr).map renderCell
          if cells.isEmpty then none
          else if hasTh then some ("||" ++ String.intercalate "||" cells ++ "||")
          else some ("|" ++ String.intercalate "|" cells ++ "|"))
      else rows
    if allRows.isEmpty then "" else String.intercalate "\n" allRows ++ "\n\n"
termination_by structural f => f
end

/-- Fuel that exceeds the length of any chain of mutual calls over `root`. -/
def fuelFor (root : Node) : Nat := 2 * Node.size root + 2

/-- `html_to_jira_markup` of `src/conv.py` after the parser has produced
`root`: walk the tree, collapse runs of three or more newlines to two, then
strip the final result. -/
def html_to_jira_markup (root : Node) : String :=
  pyStrip (collapseNewlines (processElement (fuelFor root) none 0 root))

/-! ## The fallback entry point of `src/3.py` -/

/-- `soup.get_text(separator='\n', strip=True)`: each descendant string
stripped, whitespace-only strings dropped, the rest joined with newlines. -/
def getTextSep (root : Node) : String :=
  String.intercalate "\n" (((nodeStrings root).map pyStrip).filter (fun s => !s.isEmpty))

/-- The `try/except` shell of `html_to_jira_markup` in `src/3.py`:
`attempt` is the outcome of the protected conversion region (any step of
which may fail); on failure the degraded plain-text extraction of the
re-parsed tree `root` is returned instead of propagating the error. -/
def html_to_jira_markup_safe (attempt : Except String String) (root : Node) : String :=
  match attempt with
  | .ok s => s
  | .error _ => getTextSep root

/-! ## Helper definitions used to state the table claim -/

/-- Is the tag one of the table-structural tags the table renderer searches
for? -/
def isTableTag (t : String) : Bool :=
  t = "thead" || t = "tbody" || t = "tr" || t = "th" || t = "td"

mutual
/-- Neither the node nor any descendant is a table-structural element. -/
def tableTagFree : Node → Bool
  | .text _ => true
  | .elem t _ cs => !isTableTag t && tableTagFreeList cs
/-- `tableTagFree` over a forest. -/
def tableTagFreeList : List Node → Bool
  | [] => true
  | c :: rest => tableTagFree c && tableTagFreeList rest
end

/-- The inline-rendered, trimmed content of a table cell with children
`cs`, at fuel `f`. -/
def renderCellF (f : Nat) (cs : List Node) : String :=
  pyStrip (String.join (cs.map (fun c => processElement f none 0 c)))

/-- A table with one header row (cells `hconts`, as `th` elements) inside a
`thead`, and body rows `bconts` (cells as `td` elements) inside a `tbody`. -/
def mkTable (hconts : List (List Node)) (bconts : List (List (List Node))) : Node :=
  .elem "table" []
    [.elem "thead" [] [.elem "tr" [] (hconts.map (fun cs => Node.elem "th" [] cs))],
     .elem "tbody" []
       (bconts.map (fun row => Node.elem "tr" [] (row.map (fun cs => Node.elem "td" [] cs))))]

/-! ## A decomposition of `process_table`, used to prove fuel-stability -/

/-- The inline-rendered, trimmed content of a table cell node at fuel `f`
(the `renderCell` helper inside `process_table`). -/
def renderCellNode (f : Nat) (cell : Node) : String :=
  pyStrip (String.join ((childrenOf cell).map (fun c => processElement f none 0 c)))

/-- The header-row lines of `process_table` (thead sections). -/
def headerRowsD (f : Nat) (t : Node) : List String :=
  (findAllDesc (fun s => s = "thead") t).flatMap (fun thead =>
    (findAllDesc (fun s => s = "tr") thead).filterMap (fun tr =>
      let cells := (findAllDesc (fun s => s = "th" || s = "td") tr).map (renderCellNode f)
      if cells.isEmpty then none
      else some ("||" ++ String.intercalate "||" cells ++ "||")))

/-- The body-row lines of `process_table` (tbody sections). -/
def bodyRowsD (f : Nat) (t : Node) : List String :=
  (findAllDesc (fun s => s = "tbody") t).flatMap (fun tbody =>
    (findAllDesc (fun s => s = "tr") tbody).filterMap (fun tr =>
      let cells := (findAllDesc (fun s => s = "td" || s = "th") tr).map (renderCellNode f)
      if cells.isEmpty then none
      else some ("|" ++ String.intercalate "|" cells ++ "|")))

/-- The flat-table row lines of `process_table` (direct `tr` children,
used only when no thead/tbody rows were found). -/
def flatRowsD (f : Nat) (t : Node) : List String :=
  ((childrenOf t).filter (fun n => nodeName n = some "tr")).filterMap (fun tr =>
    let hasTh := !(findAllDesc (fun s => s = "th") tr).isEmpty
    let cells := (findAllDesc (fun s => s = "td" || s = "th") tr).map (renderCellNode f)
    if cells.isEmpty then none
    else if hasTh then some ("||" ++ String.intercalate "||" cells ++ "||")
    else some ("|" ++ String.intercalate "|" cells ++ "|"))

/-- All row lines chosen by `process_table`. -/
def tableRowsD (f : Nat) (t : Node) : List String :=
  if (headerRowsD f t ++ bodyRowsD f t).isEmpty then flatRowsD f t
  else headerRowsD f t ++ bodyRowsD f t

/-! ## Lemmas on the newline-collapse pass -/

theorem hasTripleNL_cons_ne (c : Char) (X : List Char) (hc : ¬ c = '\n') :
    hasTripleNL (c :: X) = hasTripleNL X := by
  match X with
  | [] => rfl
  | [b] => rfl
  | b :: d :: r => simp [hasTripleNL, hc]

theorem hasTripleNL_nl_cons_ne (c : Char) (X : List Char) (hc : ¬ c = '\n') :
    hasTripleNL ('\n' :: c :: X) = hasTripleNL X := by
  match X with
  | [] => rfl
  | [b] => simp [hasTripleNL, hc]
  | b :: d :: r =>
      rw [show hasTripleNL ('\n' :: c :: b :: d :: r)
            = ((('\n' : Char) = '\n' && c = '\n' && b = '\n')
                || hasTripleNL (c :: b :: d :: r)) from rfl]
      rw [hasTripleNL_cons_ne c _ hc]
      simp [hc]

theorem hasTripleNL_nl_nl_cons_ne (c : Char) (X : List Char) (hc : ¬ c = '\n') :
    hasTripleNL ('\n' :: '\n' :: c :: X) = hasTripleNL X := by
  rw [show hasTripleNL ('\n' :: '\n' :: c :: X)
        = ((('\n' : Char) = '\n' && ('\n' : Char) = '\n' && c = '\n')
            || hasTripleNL ('\n' :: c :: X)) from rfl]
  rw [hasTripleNL_nl_cons_ne c X hc]
  simp [hc]

theorem hasTripleNL_replicate_append (n : Nat) (hn : n ≤ 2) (c : Char) (hc : ¬ c = '\n')
    (X : List Char) :
    hasTripleNL (List.replicate n '\n' ++ c :: X) = hasTripleNL X := by
  interval_cases n
  · simpa using hasTripleNL_cons_ne c X hc
  · simpa using hasTripleNL_nl_cons_ne c X hc
  · simpa [List.replicate] using hasTripleNL_nl_nl_cons_ne c X hc

theorem hasTripleNL_replicate (n : Nat) (hn : n ≤ 2) :
    hasTripleNL (List.replicate n '\n') = false := by
  interval_cases n <;> decide

theorem collapseAux_noTriple : (l : List Char) → (n : Nat) →
    hasTripleNL (collapseAux l n) = false
  | [], n => by
      simp only [collapseAux]
      exact hasTripleNL_replicate (min n 2) (min_le_right n 2)
  | c :: rest, n => by
      by_cases hc : c = '\n'
      · simp only [collapseAux, hc, if_pos]
        exact collapseAux_noTriple rest (n + 1)
      · simp only [collapseAux, hc, if_neg, ite_false]
        rw [hasTripleNL_replicate_append (min n 2) (min_le_right n 2) c hc]
        exact collapseAux_noTriple rest 0

theorem collapseAux_fixed : (l : List Char) → (n : Nat) → n ≤ 2 →
    hasTripleNL (List.replicate n '\n' ++ l) = false →
    collapseAux l n = List.replicate n '\n' ++ l
  | [], n, hn, h => by
      simp only [collapseAux, min_eq_left hn, List.append_nil]
  | c :: rest, n, hn, h => by
      by_cases hc : c = '\n'
      · subst hc
        have hrepl : List.replicate (n + 1) '\n' ++ rest
            = List.replicate n '\n' ++ '\n' :: rest := by
          rw [List.replicate_succ', List.append_assoc]
          rfl
        have hn1 : n + 1 ≤ 2 := by
          by_contra hgt
          have hn2 : n = 2 := by omega
          subst hn2
          simp [hasTripleNL, List.replicate] at h
        have ih := collapseAux_fixed rest (n + 1) hn1 (by rw [hrepl]; exact h)
        simp only [collapseAux, if_pos]
        rw [ih, hrepl]
      · have hrest : hasTripleNL rest = false := by
          rw [hasTripleNL_replicate_append n hn c hc rest] at h
          exact h
        have ih := collapseAux_fixed rest 0 (by omega) (by simpa using hrest)
        simp only [collapseAux, hc, if_neg, ite_false, min_eq_left hn]
        rw [ih]
        rfl

/-- C9 core: one collapse pass is a fixed point of a second pass. -/
theorem collapseAux_idem (l : List Char) :
    collapseAux (collapseAux l 0) 0 = collapseAux l 0 := by
  have := collapseAux_fixed (collapseAux l 0) 0 (by omega)
    (by simpa using collapseAux_noTriple l 0)
  simpa using this

/-! ## Lemmas on stripping -/

theorem dropTrailing_prefix (p : Char → Bool) : (l : List Char) → dropTrailing p l <+: l
  | [] => List.prefix_refl []
  | c :: rest => by
      simp only [dropTrailing]
      by_cases hr : (dropTrailing p rest).isEmpty && p c
      · simp [hr]
      · simp only [hr, if_neg, Bool.not_eq_true, ite_false]
        obtain ⟨t, ht⟩ := dropTrailing_prefix p rest
        exact ⟨t, by rw [List.cons_append, ht]⟩

theorem hasTripleNL_append_left : (l t : List Char) →
    hasTripleNL (l ++ t) = false → hasTripleNL l = false
  | [], _, _ => rfl
  | [a], _, _ => rfl
  | [a, b], _, _ => rfl
  | a :: b :: c :: r, t, h => by
      simp only [List.cons_append] at h
      rw [show hasTripleNL (a :: b :: c :: (r ++ t))
            = ((a = '\n' && b = '\n' && c = '\n') || hasTripleNL (b :: c :: (r ++ t))) from rfl]
        at h
      rw [show hasTripleNL (a :: b :: c :: r)
            = ((a = '\n' && b = '\n' && c = '\n') || hasTripleNL (b :: c :: r)) from rfl]
      rcases Bool.or_eq_false_iff.mp h with ⟨h1, h2⟩
      rw [h1, Bool.false_or]
      exact hasTripleNL_append_left (b :: c :: r) t (by simpa using h2)

theorem hasTripleNL_tail (c : Char) (l : List Char)
    (h : hasTripleNL (c :: l) = false) : hasTripleNL l = false := by
  match l with
  | [] => rfl
  | [b] => rfl
  | b :: d :: r =>
      rw [show hasTripleNL (c :: b :: d :: r)
            = ((c = '\n' && b = '\n' && d = '\n') || hasTripleNL (b :: d :: r)) from rfl] at h
      exact (Bool.or_eq_false_iff.mp h).2

theorem hasTripleNL_dropWhile (p : Char → Bool) : (l : List Char) →
    hasTripleNL l = false → hasTripleNL (l.dropWhile p) = false
  | [], h => h
  | c :: rest, h => by
      rw [List.dropWhile_cons]
      by_cases hp : p c
      · simp only [hp, ite_true]
        exact hasTripleNL_dropWhile p rest (hasTripleNL_tail c rest h)
      · simpa [hp] using h

theorem hasTripleNL_dropTrailing (p : Char → Bool) (l : List Char)
    (h : hasTripleNL l = false) : hasTripleNL (dropTrailing p l) = false := by
  obtain ⟨t, ht⟩ := dropTrailing_prefix p l
  exact hasTripleNL_append_left _ t (by rw [ht]; exact h)

theorem hasTripleNL_stripChars (l : List Char) (h : hasTripleNL l = false) :
    hasTripleNL (stripChars l) = false :=
  hasTripleNL_dropTrailing isPySpace _ (hasTripleNL_dropWhile isPySpace l h)

theorem head_dropWhile_not (p : Char → Bool) : (l : List Char) → ∀ c,
    (l.dropWhile p).head? = some c → p c = false
  | [], c, h => by simp at h
  | a :: rest, c, h => by
      rw [List.dropWhile_cons] at h
      by_cases hp : p a
      · simp only [hp, ite_true] at h
        exact head_dropWhile_not p rest c h
      · rw [if_neg hp] at h
        simp only [List.head?_cons, Option.some.injEq] at h
        subst h
        exact Bool.eq_false_iff.mpr hp

theorem dropTrailing_head (p : Char → Bool) (l : List Char) :
    dropTrailing p l = [] ∨ (dropTrailing p l).head? = l.head? := by
  match l with
  | [] => exact Or.inl rfl
  | c :: rest =>
      by_cases hr : (dropTrailing p rest).isEmpty && p c
      · exact Or.inl (by simp [dropTrailing, hr])
      · refine Or.inr ?_
        rw [show dropTrailing p (c :: rest) = c :: dropTrailing p rest by
          simp [dropTrailing, hr]]
        rfl

theorem getLast_dropTrailing (p : Char → Bool) : (l : List Char) → ∀ c,
    (dropTrailing p l).getLast? = some c → p c = false
  | [], c, h => by simp [dropTrailing] at h
  | a :: rest, c, h => by
      by_cases hcond : (dropTrailing p rest).isEmpty && p a
      · rw [show dropTrailing p (a :: rest) = [] by simp [dropTrailing, hcond]] at h
        simp at h
      · rw [show dropTrailing p (a :: rest) = a :: dropTrailing p rest by
            simp [dropTrailing, hcond]] at h
        cases hrest : dropTrailing p rest with
        | nil =>
            rw [hrest] at h
            simp only [List.getLast?_singleton, Option.some.injEq] at h
            subst h
            rw [hrest] at hcond
            simpa using hcond
        | cons x xs =>
            rw [hrest, List.getLast?_cons_cons] at h
            exact getLast_dropTrailing p rest c (by rw [hrest]; exact h)

theorem headOK_stripChars (l : List Char) : headOK (stripChars l) = true := by
  unfold stripChars headOK
  rcases dropTrailing_head isPySpace (l.dropWhile isPySpace) with h | h
  · rw [h]
    rfl
  · rw [h]
    cases hh : (l.dropWhile isPySpace).head? with
    | none => rfl
    | some c =>
        have hc := head_dropWhile_not isPySpace l c hh
        simp [hc]

theorem lastOK_stripChars (l : List Char) : lastOK (stripChars l) = true := by
  unfold lastOK
  cases hh : (stripChars l).getLast? with
  | none => rfl
  | some c =>
      have hc := getLast_dropTrailing isPySpace (l.dropWhile isPySpace) c hh
      simp [hc]

/-! ## Claim C1 -/

/-! ## Claim C9 -/

/-- C9: the newline-collapse post-processing step (replacing every run of
three or more consecutive newlines with exactly two) is idempotent. -/
theorem collapse_newlines_idempotent (s : String) :
    collapseNewlines (collapseNewlines s) = collapseNewlines s :=
  congrArg String.mk (collapseAux_idem s.data)

/-! ## Claim C7 -/

/-- C7: a text node whose content is pure whitespace renders as the empty
string; a text node with at least one non-whitespace character renders
verbatim. -/
theorem text_node_rendering (f : Nat) (lt : Option Char) (lvl : Nat) (s : String) :
    (pyStrip s = "" → processElement (f + 1) lt lvl (.text s) = "")
    ∧ (pyStrip s ≠ "" → processElement (f + 1) lt lvl (.text s) = s) := by
  constructor
  · intro h
    simp [processElement, h]
  · intro h
    simp [processElement, h]

/-- Witness for C7 at a whitespace-only and a non-whitespace text node. -/
theorem text_node_rendering_witness :
    (pyStrip " \n\t " = "" ∧ processElement 1 none 0 (.text " \n\t ") = "")
    ∧ (pyStrip "ab " ≠ "" ∧ processElement 1 none 0 (.text "ab ") = "ab ") :=
  ⟨⟨by decide, (text_node_rendering 0 none 0 " \n\t ").1 (by decide)⟩,
   ⟨by decide, (text_node_rendering 0 none 0 "ab ").2 (by decide)⟩⟩

/-! ## Claim C4 -/

/-- C4 counterexample: the header branch strips LEADING whitespace as well,
so for the header `<h1> T</h1>` (inline text content " T") the output line
is "h1. T", not the claimed "h1. <space>T" that trailing-only trimming
would produce. -/
theorem header_leading_trim_cex :
    processElement 3 none 0 (.elem "h1" [] [.text " T"]) = "h1. T\n\n"
    ∧ processElement 3 none 0 (.elem "h1" [] [.text " T"]) ≠ "h1.  T\n\n" :=
  ⟨rfl, by decide⟩

/-- C4 amended: for every header element h1–h6 whose content is inline text
`s`, the output is `h<N>. ` followed by `s` stripped of BOTH leading and
trailing whitespace, followed by two newlines (`N` the input level digit). -/
theorem header_rendering (f : Nat) (lt : Option Char) (lvl : Nat) (tag : String)
    (a : List (String × String)) (s : String)
    (h : tag ∈ ["h1", "h2", "h3", "h4", "h5", "h6"]) :
    processElement (f + 2) lt lvl (.elem tag a [.text s])
      = tag ++ ". " ++ pyStrip s ++ "\n\n" := by
  have hjoin : ∀ x : String, String.join [x] = x := fun x => rfl
  have d1 : ("h1".drop 1 : String) = "1" := rfl
  have d2 : ("h2".drop 1 : String) = "2" := rfl
  have d3 : ("h3".drop 1 : String) = "3" := rfl
  have d4 : ("h4".drop 1 : String) = "4" := rfl
  have d5 : ("h5".drop 1 : String) = "5" := rfl
  have d6 : ("h6".drop 1 : String) = "6" := rfl
  have hps : pyStrip "" = "" := rfl
  by_cases hs : pyStrip s = ""
  · fin_cases h <;> simp [processElement, hs, hjoin, d1, d2, d3, d4, d5, d6, hps]
  · fin_cases h <;> simp [processElement, hs, hjoin, d1, d2, d3, d4, d5, d6, hps]

/-- Witness for C4 (amended) at `<h2> x </h2>`. -/
theorem header_rendering_witness :
    "h2" ∈ ["h1", "h2", "h3", "h4", "h5", "h6"]
    ∧ processElement 2 none 0 (.elem "h2" [] [.text " x "])
        = "h2" ++ ". " ++ pyStrip " x " ++ "\n\n" :=
  ⟨by decide, header_rendering 0 none 0 "h2" [] " x " (by decide)⟩

/-! ## Claim C5 -/

/-- C5 counterexample: an `href` attribute that is present but empty is
treated like an absent one — the link text is emitted unchanged, not the
claimed bracketed `[T|U]` form; and with a non-empty href the emitted link
text is the TRIMMED rendering, not the raw inline-rendered text " T ". -/
theorem link_empty_href_cex :
    (getAttr [("href", "")] "href" = some ""
      ∧ processElement 3 none 0 (.elem "a" [("href", "")] [.text "T"]) = "T"
      ∧ ("T" : String) ≠ "[T|]")
    ∧ (processElement 3 none 0 (.elem "a" [("href", "u")] [.text " T "]) = "[T|u]"
      ∧ ("[T|u]" : String) ≠ "[ T |u]") :=
  ⟨⟨rfl, rfl, by decide⟩, rfl, by decide⟩

/-- C5 amended: for every anchor element, if the `href` attribute is present
with a NON-EMPTY value the converter emits `[T|U]` with `T` the TRIMMED
inline-rendered link text and `U` the href value; if `href` is absent or
empty it emits the link text unchanged, with no brackets added. -/
theorem link_rendering (f : Nat) (lt : Option Char) (lvl : Nat)
    (a : List (String × String)) (cs : List Node) :
    (getAttrD (Node.elem "a" a cs) "href" "" ≠ "" →
      processElement (f + 1) lt lvl (.elem "a" a cs)
        = "[" ++ pyStrip (String.join (cs.map (fun c => processElement f none 0 c)))
            ++ "|" ++ getAttrD (Node.elem "a" a cs) "href" "" ++ "]")
    ∧ (getAttrD (Node.elem "a" a cs) "href" "" = "" →
      processElement (f + 1) lt lvl (.elem "a" a cs)
        = String.join (cs.map (fun c => processElement f none 0 c))) := by
  constructor <;> intro h <;> simp [processElement, h]

/-- Witness for C5 (amended): one anchor with a non-empty href, one with no
href attribute at all. -/
theorem link_rendering_witness :
    (getAttrD (Node.elem "a" [("href", "u")] [Node.text " T "]) "href" "" ≠ ""
      ∧ processElement 1 none 0 (.elem "a" [("href", "u")] [.text " T "])
          = "[" ++ pyStrip (String.join ([Node.text " T "].map
                (fun c => processElement 0 none 0 c)))
              ++ "|" ++ getAttrD (Node.elem "a" [("href", "u")] [Node.text " T "]) "href" ""
              ++ "]")
    ∧ (getAttrD (Node.elem "a" [] [Node.text "T"]) "href" "" = ""
      ∧ processElement 1 none 0 (.elem "a" [] [.text "T"])
          = String.join ([Node.text "T"].map (fun c => processElement 0 none 0 c))) :=
  ⟨⟨by decide, (link_rendering 0 none 0 [("href", "u")] [.text " T "]).1 (by decide)⟩,
   ⟨by decide, (link_rendering 0 none 0 [] [.text "T"]).2 (by decide)⟩⟩

/-! ## Claim C8 -/

/-- C8: a blockquote renders its children inline, splits the (stripped)
result on newlines, emits each non-blank line as the quote marker `bq. `
followed by the line's trimmed content and a newline (blank lines are
omitted), and appends one further newline so the quote ends in a blank
line; illustrated on a concrete two-line quote. -/
theorem blockquote_rendering (f : Nat) (lt : Option Char) (lvl : Nat)
    (a : List (String × String)) (cs : List Node) :
    processElement (f + 1) lt lvl (.elem "blockquote" a cs)
      = String.join
          ((splitNL (pyStrip (String.join (cs.map
                (fun c => processElement f none 0 c))))).map
            (fun line => if pyStrip line ≠ "" then "bq. " ++ pyStrip line ++ "\n" else ""))
          ++ "\n"
    ∧ processElement 9 none 0
        (.elem "blockquote" [] [.text "  a ", .elem "br" [] [], .text " b  "])
      = "bq. a\nbq. b\n\n" := by
  constructor
  · simp [processElement]
  · rfl

/-! ## Claim C3 -/

/-- C3: a list item's prefix is the marker repeated `level + 1` times plus a
space; a `ul`/`ol` that is a direct child of the item has its direct `li`
children rendered at `level + 1` with the nested list's own marker, each
prefixed by a newline; the joined content is trimmed before the prefix is
attached and a trailing newline terminates the item.  In particular a
depth-0 unordered item gets the one-character prefix "* " and a depth-1
item nested under it in an ordered list gets the two-character prefix
"## ". -/
theorem list_item_rendering (f : Nat) (marker : Char) (lvl : Nat) (li : Node) :
    processListItem (f + 1) marker lvl li
      = String.mk (List.replicate (lvl + 1) marker) ++ " "
          ++ pyStrip (String.join ((childrenOf li).map (fun child =>
              if nodeName child = some "ul" then
                String.join (((childrenOf child).filter
                    (fun n => nodeName n = some "li")).map
                  (fun nested => "\n" ++ processListItem f '*' (lvl + 1) nested))
              else if nodeName child = some "ol" then
                String.join (((childrenOf child).filter
                    (fun n => nodeName n = some "li")).map
                  (fun nested => "\n" ++ processListItem f '#' (lvl + 1) nested))
              else processElement f (some marker) lvl child))) ++ "\n"
    ∧ processElement 6 none 0
        (.elem "ul" [] [.elem "li" [] [.text "a", .elem "ol" [] [.elem "li" [] [.text "b"]]]])
      = "* a\n## b\n" :=
  ⟨rfl, rfl⟩

/-! ## Claim C10 -/

/-- C10: the nesting level rises only for a `ul`/`ol` that is a DIRECT child
of an `li`; a list wrapped in an intermediate container (here a `div`)
inside an item is rendered at the SAME nesting level (same one-character
prefix at depth 0) and without the leading-newline separation, contrasted
with a directly nested list. -/
theorem wrapped_list_same_level (f : Nat) (marker : Char) (lvl : Nat)
    (a a2 : List (String × String)) (lis : List Node) :
    processElement (f + 2) (some marker) lvl (.elem "div" a [.elem "ul" a2 lis])
      = String.join (lis.map (fun c =>
          if nodeName c = some "li" then processListItem f '*' lvl c else ""))
    ∧ processElement 8 none 0
        (.elem "ul" [] [.elem "li" [] [.text "a",
          .elem "div" [] [.elem "ul" [] [.elem "li" [] [.text "b"]]]]])
      = "* a* b\n"
    ∧ processElement 8 none 0
        (.elem "ul" [] [.elem "li" [] [.text "a",
          .elem "ul" [] [.elem "li" [] [.text "b"]]]])
      = "* a\n** b\n" := by
  refine ⟨?_, rfl, rfl⟩
  have hjoin : ∀ x : String, String.join [x] = x := fun x => rfl
  simp [processElement, hjoin]

/-! ## Bridge lemmas for the table claim -/

mutual
theorem tableTagFree_findAllSelf (p : String → Bool)
    (hp : ∀ t, p t = true → isTableTag t = true) :
    (n : Node) → tableTagFree n = true → findAllSelf p n = []
  | .text _, _ => rfl
  | .elem t a cs, h => by
      rw [tableTagFree, Bool.and_eq_true] at h
      obtain ⟨h1, h2⟩ := h
      have hpt : p t = false := by
        cases hpt : p t
        · rfl
        · exact absurd (hp t hpt) (by simpa using h1)
      rw [findAllSelf, hpt]
      simp [tableTagFree_findAllList p hp cs h2]
theorem tableTagFree_findAllList (p : String → Bool)
    (hp : ∀ t, p t = true → isTableTag t = true) :
    (cs : List Node) → tableTagFreeList cs = true → findAllList p cs = []
  | [], _ => rfl
  | c :: rest, h => by
      rw [tableTagFreeList, Bool.and_eq_true] at h
      rw [findAllList, tableTagFree_findAllSelf p hp c h.1,
        tableTagFree_findAllList p hp rest h.2]
      rfl
end

theorem findAllList_cells_none (p : String → Bool)
    (hp : ∀ t, p t = true → isTableTag t = true)
    (tagc : String) (htagc : p tagc = false) :
    (conts : List (List Node)) → (∀ cs ∈ conts, tableTagFreeList cs = true) →
    findAllList p (conts.map (fun cs => Node.elem tagc [] cs)) = []
  | [], _ => rfl
  | cs :: rest, h => by
      rw [List.map_cons, findAllList, findAllSelf, htagc]
      simp [tableTagFree_findAllList p hp cs (h cs (by simp)),
        findAllList_cells_none p hp tagc htagc rest (fun x hx => h x (by simp [hx]))]

theorem findAllList_cells_self (p : String → Bool)
    (hp : ∀ t, p t = true → isTableTag t = true)
    (tagc : String) (htagc : p tagc = true) :
    (conts : List (List Node)) → (∀ cs ∈ conts, tableTagFreeList cs = true) →
    findAllList p (conts.map (fun cs => Node.elem tagc [] cs))
      = conts.map (fun cs => Node.elem tagc [] cs)
  | [], _ => rfl
  | cs :: rest, h => by
      rw [List.map_cons, findAllList, findAllSelf, htagc]
      simp [tableTagFree_findAllList p hp cs (h cs (by simp)),
        findAllList_cells_self p hp tagc htagc rest (fun x hx => h x (by simp [hx]))]

theorem findAllList_rows_none (p : String → Bool)
    (hp : ∀ t, p t = true → isTableTag t = true)
    (htr : p "tr" = false) (htd : p "td" = false) :
    (rows : List (List (List Node))) →
    (∀ row ∈ rows, ∀ cs ∈ row, tableTagFreeList cs = true) →
    findAllList p (rows.map (fun row =>
      Node.elem "tr" [] (row.map (fun cs => Node.elem "td" [] cs)))) = []
  | [], _ => rfl
  | row :: rest, h => by
      rw [List.map_cons, findAllList, findAllSelf, htr]
      simp [findAllList_cells_none p hp "td" htd row (h row (by simp)),
        findAllList_rows_none p hp htr htd rest (fun x hx => h x (by simp [hx]))]

theorem findAllList_rows_self (p : String → Bool)
    (hp : ∀ t, p t = true → isTableTag t = true)
    (htr : p "tr" = true) (htd : p "td" = false) :
    (rows : List (List (List Node))) →
    (∀ row ∈ rows, ∀ cs ∈ row, tableTagFreeList cs = true) →
    findAllList p (rows.map (fun row =>
      Node.elem "tr" [] (row.map (fun cs => Node.elem "td" [] cs))))
      = rows.map (fun row => Node.elem "tr" [] (row.map (fun cs => Node.elem "td" [] cs)))
  | [], _ => rfl
  | row :: rest, h => by
      rw [List.map_cons, findAllList, findAllSelf, htr]
      simp [findAllList_cells_none p hp "td" htd row (h row (by simp)),
        findAllList_rows_self p hp htr htd rest (fun x hx => h x (by simp [hx]))]

theorem filterMap_some_map {α β : Type} (g : α → Option β) (fm : α → β) :
    (l : List α) → (∀ x ∈ l, g x = some (fm x)) → l.filterMap g = l.map fm
  | [], _ => rfl
  | x :: rest, h => by
      rw [List.filterMap_cons, h x (by simp), List.map_cons,
        filterMap_some_map g fm rest (fun y hy => h y (by simp [hy]))]

/-! ## Claim C2 -/

/-- C2: a table with exactly one header row of R ≥ 1 cells inside a header
section and C body rows (each of ≥ 1 cells) inside a body section produces
exactly one line of the trimmed header-cell contents joined with `||` and
wrapped in `||`, and one line per body row of the trimmed cell contents
joined with `|` and wrapped in `|`; all row lines are newline-separated and
followed by two trailing newlines.  A table in which no rows are found by
any rule (no header sections, no body sections, no direct row children)
produces the empty string.  The cell contents are required to contain no
table-structural tags, matching the claim's shape of a plain R×C table. -/
theorem table_rendering (f : Nat) :
    (∀ (hconts : List (List Node)) (bconts : List (List (List Node))),
      hconts ≠ [] →
      (∀ row ∈ bconts, row ≠ []) →
      (∀ cs ∈ hconts, tableTagFreeList cs = true) →
      (∀ row ∈ bconts, ∀ cs ∈ row, tableTagFreeList cs = true) →
      processTable (f + 1) (mkTable hconts bconts)
        = String.intercalate "\n"
            (("||" ++ String.intercalate "||" (hconts.map (renderCellF f)) ++ "||")
              :: bconts.map (fun row =>
                   "|" ++ String.intercalate "|" (row.map (renderCellF f)) ++ "|"))
          ++ "\n\n")
    ∧ (∀ (a : List (String × String)) (cs : List Node),
      findAllList (fun s => s = "thead") cs = [] →
      findAllList (fun s => s = "tbody") cs = [] →
      cs.filter (fun n => nodeName n = some "tr") = [] →
      processTable (f + 1) (.elem "table" a cs) = "") := by
  constructor
  · intro hconts bconts hne hbne hclean hcleanb
    have hpThead : ∀ t : String, decide (t = "thead") = true → isTableTag t = true := by
      intro t ht
      rw [decide_eq_true_iff] at ht
      subst ht
      rfl
    have hpTbody : ∀ t : String, decide (t = "tbody") = true → isTableTag t = true := by
      intro t ht
      rw [decide_eq_true_iff] at ht
      subst ht
      rfl
    have hpTr : ∀ t : String, decide (t = "tr") = true → isTableTag t = true := by
      intro t ht
      rw [decide_eq_true_iff] at ht
      subst ht
      rfl
    have hpThTd : ∀ t : String,
        (decide (t = "th") || decide (t = "td")) = true → isTableTag t = true := by
      intro t ht
      rw [Bool.or_eq_true, decide_eq_true_iff, decide_eq_true_iff] at ht
      rcases ht with rfl | rfl <;> rfl
    have hpTdTh : ∀ t : String,
        (decide (t = "td") || decide (t = "th")) = true → isTableTag t = true := by
      intro t ht
      rw [Bool.or_eq_true, decide_eq_true_iff, decide_eq_true_iff] at ht
      rcases ht with rfl | rfl <;> rfl
    have nTheadCells := findAllList_cells_none _ hpThead "th" (by decide) hconts hclean
    have nTbodyCells := findAllList_cells_none _ hpTbody "th" (by decide) hconts hclean
    have nTrCells := findAllList_cells_none _ hpTr "th" (by decide) hconts hclean
    have sThTdCells := findAllList_cells_self _ hpThTd "th" (by decide) hconts hclean
    have nTheadRows := findAllList_rows_none _ hpThead (by decide) (by decide) bconts hcleanb
    have nTbodyRows := findAllList_rows_none _ hpTbody (by decide) (by decide) bconts hcleanb
    have sTrRows := findAllList_rows_self _ hpTr (by decide) (by decide) bconts hcleanb
    have hA : findAllDesc (fun s => decide (s = "thead")) (mkTable hconts bconts)
        = [Node.elem "thead" []
            [Node.elem "tr" [] (hconts.map (fun cs => Node.elem "th" [] cs))]] := by
      simp [findAllDesc, mkTable, findAllList, findAllSelf, nTheadCells, nTheadRows]
    have hB : findAllDesc (fun s => decide (s = "tbody")) (mkTable hconts bconts)
        = [Node.elem "tbody" []
            (bconts.map (fun row =>
              Node.elem "tr" [] (row.map (fun cs => Node.elem "td" [] cs))))] := by
      simp [findAllDesc, mkTable, findAllList, findAllSelf, nTbodyCells, nTbodyRows]
    have hC : findAllDesc (fun s => decide (s = "tr"))
        (Node.elem "thead" []
          [Node.elem "tr" [] (hconts.map (fun cs => Node.elem "th" [] cs))])
        = [Node.elem "tr" [] (hconts.map (fun cs => Node.elem "th" [] cs))] := by
      simp [findAllDesc, findAllList, findAllSelf, nTrCells]
    have hD : findAllDesc (fun s => decide (s = "tr"))
        (Node.elem "tbody" [] (bconts.map (fun row =>
          Node.elem "tr" [] (row.map (fun cs => Node.elem "td" [] cs)))))
        = bconts.map (fun row =>
            Node.elem "tr" [] (row.map (fun cs => Node.elem "td" [] cs))) := by
      simp [findAllDesc, sTrRows]
    have hE : findAllDesc (fun s => decide (s = "th") || decide (s = "td"))
        (Node.elem "tr" [] (hconts.map (fun cs => Node.elem "th" [] cs)))
        = hconts.map (fun cs => Node.elem "th" [] cs) := by
      simp [findAllDesc, sThTdCells]
    have hmapH : (hconts.map (fun cs => Node.elem "th" [] cs)).map
        (fun cell => pyStrip (String.join
          (List.map (fun c => processElement f none 0 c) (childrenOf cell))))
        = hconts.map (renderCellF f) := by
      rw [List.map_map]
      rfl
    have hHne : (hconts.map (renderCellF f)).isEmpty = false := by
      cases hconts with
      | nil => exact absurd rfl hne
      | cons a t => rfl
    have hBody : List.filterMap
        (fun tr =>
          if (List.map
                (fun cell => pyStrip (String.join
                  (List.map (fun c => processElement f none 0 c) (childrenOf cell))))
                (findAllDesc (fun s => decide (s = "td") || decide (s = "th")) tr)).isEmpty
              = true
          then none
          else some ("|" ++ "|".intercalate
                (List.map
                  (fun cell => pyStrip (String.join
                    (List.map (fun c => processElement f none 0 c) (childrenOf cell))))
                  (findAllDesc (fun s => decide (s = "td") || decide (s = "th")) tr)) ++ "|"))
        (bconts.map (fun row => Node.elem "tr" [] (row.map (fun cs => Node.elem "td" [] cs))))
        = bconts.map (fun row =>
            "|" ++ String.intercalate "|" (row.map (renderCellF f)) ++ "|") := by
      rw [List.filterMap_map]
      apply filterMap_some_map
      intro row hrow
      have hcells : findAllDesc (fun s => decide (s = "td") || decide (s = "th"))
          (Node.elem "tr" [] (row.map (fun cs => Node.elem "td" [] cs)))
          = row.map (fun cs => Node.elem "td" [] cs) := by
        simp [findAllDesc,
          findAllList_cells_self _ hpTdTh "td" (by decide) row (hcleanb row hrow)]
      have hmapR : (row.map (fun cs => Node.elem "td" [] cs)).map
          (fun cell => pyStrip (String.join
            (List.map (fun c => processElement f none 0 c) (childrenOf cell))))
          = row.map (renderCellF f) := by
        rw [List.map_map]
        rfl
      have hRne : (row.map (renderCellF f)).isEmpty = false := by
        cases hr : row with
        | nil => exact absurd hr (hbne row hrow)
        | cons a t => rfl
      simp only [Function.comp, hcells, hmapR, hRne]
      rfl
    simp only [processTable]
    rw [hA, hB]
    simp only [List.flatMap_cons, List.flatMap_nil, List.append_nil]
    rw [hC, hD]
    simp only [List.filterMap_cons, List.filterMap_nil]
    rw [hE, hmapH, hHne]
    simp only [Bool.false_eq_true, if_false, ite_false]
    rw [hBody]
    simp only [List.cons_append, List.nil_append, List.isEmpty_cons, Bool.false_eq_true,
      if_false, ite_false]
  · intro a cs h1 h2 h3
    simp only [processTable]
    rw [show findAllDesc (fun s => decide (s = "thead")) (Node.elem "table" a cs)
          = findAllList (fun s => decide (s = "thead")) cs from rfl, h1]
    rw [show findAllDesc (fun s => decide (s = "tbody")) (Node.elem "table" a cs)
          = findAllList (fun s => decide (s = "tbody")) cs from rfl, h2]
    rw [show childrenOf (Node.elem "table" a cs) = cs from rfl, h3]
    rfl

/-- Witness for C2: a 2-column table with one header row and one body row,
and a rowless table. -/
theorem table_rendering_witness :
    (([[Node.text "A"], [Node.text "B"]] : List (List Node)) ≠ []
      ∧ (∀ row ∈ ([[[Node.text "x"], [Node.text "y"]]] : List (List (List Node))), row ≠ [])
      ∧ (∀ cs ∈ ([[Node.text "A"], [Node.text "B"]] : List (List Node)),
          tableTagFreeList cs = true)
      ∧ (∀ row ∈ ([[[Node.text "x"], [Node.text "y"]]] : List (List (List Node))),
          ∀ cs ∈ row, tableTagFreeList cs = true)
      ∧ processTable 3 (mkTable [[Node.text "A"], [Node.text "B"]]
            [[[Node.text "x"], [Node.text "y"]]])
          = String.intercalate "\n"
              (("||" ++ String.intercalate "||"
                  (([[Node.text "A"], [Node.text "B"]] : List (List Node)).map (renderCellF 2))
                  ++ "||")
                :: ([[[Node.text "x"], [Node.text "y"]]] : List (List (List Node))).map
                     (fun row => "|" ++ String.intercalate "|" (row.map (renderCellF 2)) ++ "|"))
            ++ "\n\n")
    ∧ (findAllList (fun s => s = "thead") [Node.elem "div" [] []] = []
      ∧ findAllList (fun s => s = "tbody") [Node.elem "div" [] []] = []
      ∧ ([Node.elem "div" [] []] : List Node).filter (fun n => nodeName n = some "tr") = []
      ∧ processTable 3 (.elem "table" [] [Node.elem "div" [] []]) = "") := by
  have h1 : ([[Node.text "A"], [Node.text "B"]] : List (List Node)) ≠ [] := by simp
  have h2 : ∀ row ∈ ([[[Node.text "x"], [Node.text "y"]]] : List (List (List Node))),
      row ≠ [] := by
    intro row hr
    simp only [List.mem_singleton] at hr
    subst hr
    simp
  have h3 : ∀ cs ∈ ([[Node.text "A"], [Node.text "B"]] : List (List Node)),
      tableTagFreeList cs = true := by
    intro cs hcs
    simp only [List.mem_cons, List.mem_singleton] at hcs
    rcases hcs with rfl | rfl | h
    · rfl
    · rfl
    · simp at h
  have h4 : ∀ row ∈ ([[[Node.text "x"], [Node.text "y"]]] : List (List (List Node))),
      ∀ cs ∈ row, tableTagFreeList cs = true := by
    intro row hr cs hcs
    simp only [List.mem_singleton] at hr
    subst hr
    simp only [List.mem_cons, List.mem_singleton] at hcs
    rcases hcs with rfl | rfl | h
    · rfl
    · rfl
    · simp at h
  refine ⟨⟨h1, h2, h3, h4, (table_rendering 2).1 _ _ h1 h2 h3 h4⟩, rfl, rfl, rfl,
    (table_rendering 2).2 [] [Node.elem "div" [] []] rfl rfl rfl⟩

/-! ## Lemmas for the fallback claim -/

theorem go_append (s : String) : (l : List String) → ∀ x y : String,
    String.intercalate.go (x ++ y) s l = x ++ String.intercalate.go y s l
  | [], x, y => rfl
  | c :: l, x, y => by
      rw [show String.intercalate.go (x ++ y) s (c :: l)
            = String.intercalate.go (x ++ y ++ s ++ c) s l from rfl]
      rw [show String.intercalate.go y s (c :: l)
            = String.intercalate.go (y ++ s ++ c) s l from rfl]
      rw [show x ++ y ++ s ++ c = x ++ (y ++ s ++ c) by
        simp [String.append_assoc]]
      exact go_append s l x (y ++ s ++ c)

theorem intercalate_cons_cons (sep a b : String) (l : List String) :
    String.intercalate sep (a :: b :: l) = a ++ sep ++ String.intercalate sep (b :: l) := by
  rw [show String.intercalate sep (a :: b :: l)
        = String.intercalate.go (a ++ sep ++ b) sep l from rfl]
  rw [show String.intercalate sep (b :: l) = String.intercalate.go b sep l from rfl]
  rw [show a ++ sep ++ b = (a ++ sep) ++ b from rfl]
  rw [go_append sep l (a ++ sep) b]

theorem headOK_append (a t : String) (ha : a.data ≠ []) :
    headOK (a ++ t).data = headOK a.data := by
  unfold headOK
  rw [show (a ++ t).data.head? = a.data.head? by
    rw [String.data_append]
    cases hd : a.data with
    | nil => exact absurd hd ha
    | cons c cs => rfl]

theorem lastOK_append (a t : String) (ht : t.data ≠ []) :
    lastOK (a ++ t).data = lastOK t.data := by
  unfold lastOK
  rw [show (a ++ t).data.getLast? = t.data.getLast? by
    rw [String.data_append, List.getLast?_append]
    cases hd : t.data.getLast? with
    | none =>
        rw [List.getLast?_eq_none_iff] at hd
        exact absurd hd ht
    | some c => rfl]

theorem data_ne_nil_of_ne_empty (a : String) (h : a ≠ "") : a.data ≠ [] := by
  intro hd
  exact h (String.ext (by rw [hd]))

theorem intercalate_ok (sep : String) : (l : List String) →
    (∀ x ∈ l, x ≠ "" ∧ headOK x.data = true ∧ lastOK x.data = true) →
    l = [] ∨ (String.intercalate sep l ≠ ""
      ∧ headOK (String.intercalate sep l).data = true
      ∧ lastOK (String.intercalate sep l).data = true)
  | [], _ => Or.inl rfl
  | [a], h => by
      right
      rw [show String.intercalate sep [a] = a from rfl]
      exact h a (by simp)
  | a :: b :: l, h => by
      right
      obtain ⟨ha, hha, hla⟩ := h a (by simp)
      have hrest := intercalate_ok sep (b :: l) (fun x hx => h x (by simp [hx]))
      rcases hrest with habs | ⟨hne, hh, hl⟩
      · exact absurd habs (by simp)
      have haData : a.data ≠ [] := data_ne_nil_of_ne_empty a ha
      have hiData : (String.intercalate sep (b :: l)).data ≠ [] :=
        data_ne_nil_of_ne_empty _ hne
      rw [intercalate_cons_cons]
      refine ⟨?_, ?_, ?_⟩
      · intro hEmpty
        have hdata : (a ++ sep ++ String.intercalate sep (b :: l)).data = [] := by
          rw [hEmpty]
        rw [String.data_append, String.data_append, List.append_eq_nil,
          List.append_eq_nil] at hdata
        exact haData hdata.1.1
      · have hfirst : (a ++ sep).data ≠ [] := by
          rw [String.data_append]
          intro hd
          exact haData (List.append_eq_nil.mp hd).1
        rw [show a ++ sep ++ String.intercalate sep (b :: l)
              = (a ++ sep) ++ String.intercalate sep (b :: l) from rfl]
        rw [headOK_append _ _ hfirst, headOK_append _ _ haData]
        exact hha
      · rw [lastOK_append _ _ hiData]
        exact hl

/-! ## Claim C6 -/

/-- C6: the conversion entry point of `src/3.py` never propagates a failure
of the protected conversion region: on any failure outcome it returns the
degraded plain-text result (each text node's content stripped, whitespace-
only ones dropped, the rest joined in document order with newlines); in all
cases the caller receives either the full markup string or the degraded
plain-text string.  The fallback is a total function whose result is itself
trimmed (it neither begins nor ends with whitespace). -/
theorem conversion_fallback (attempt : Except String String) (root : Node) :
    ((∃ e, attempt = .error e) →
        html_to_jira_markup_safe attempt root = getTextSep root)
    ∧ ((∃ s, attempt = .ok s ∧ html_to_jira_markup_safe attempt root = s)
        ∨ html_to_jira_markup_safe attempt root = getTextSep root)
    ∧ getTextSep root
        = String.intercalate "\n"
            (((nodeStrings root).map pyStrip).filter (fun s => !s.isEmpty))
    ∧ headOK (getTextSep root).data = true
    ∧ lastOK (getTextSep root).data = true := by
  have hpieces : ∀ x ∈ ((nodeStrings root).map pyStrip).filter (fun s => !s.isEmpty),
      x ≠ "" ∧ headOK x.data = true ∧ lastOK x.data = true := by
    intro x hx
    rw [List.mem_filter] at hx
    obtain ⟨hmem, hne⟩ := hx
    rw [List.mem_map] at hmem
    obtain ⟨s, hs, rfl⟩ := hmem
    refine ⟨?_, headOK_stripChars s.data, lastOK_stripChars s.data⟩
    intro hempty
    rw [hempty] at hne
    exact absurd hne (by decide)
  have hOK : headOK (getTextSep root).data = true ∧ lastOK (getTextSep root).data = true := by
    rcases intercalate_ok "\n" _ hpieces with hnil | ⟨_, hh, hl⟩
    · rw [getTextSep, hnil]
      exact ⟨rfl, rfl⟩
    · exact ⟨hh, hl⟩
  refine ⟨?_, ?_, rfl, hOK.1, hOK.2⟩
  · rintro ⟨e, rfl⟩
    rfl
  · cases attempt with
    | ok s => exact Or.inl ⟨s, rfl, rfl⟩
    | error e => exact Or.inr rfl

/-- Witness for C6: a failing conversion outcome falls back to the degraded
plain-text result on a concrete tree. -/
theorem conversion_fallback_witness :
    (∃ e, (Except.error "parser blew up" : Except String String) = .error e)
    ∧ html_to_jira_markup_safe (Except.error "parser blew up")
        (.elem "[document]" [] [.elem "p" [] [.text "  a "], .text " \n ", .text "b"])
      = getTextSep (.elem "[document]" [] [.elem "p" [] [.text "  a "], .text " \n ", .text "b"]) :=
  ⟨⟨"parser blew up", rfl⟩,
   (conversion_fallback (Except.error "parser blew up")
     (.elem "[document]" [] [.elem "p" [] [.text "  a "], .text " \n ", .text "b"])).1
     ⟨"parser blew up", rfl⟩⟩

/-! ## Fuel-stability of the recursive walk -/

theorem Node.size_pos : ∀ e : Node, 1 ≤ Node.size e
  | .text _ => le_refl 1
  | .elem _ _ cs => by rw [Node.size]; omega

theorem size_le_sizeList : (cs : List Node) → ∀ c ∈ cs, Node.size c ≤ Node.sizeList cs
  | c0 :: rest, c, hc => by
      rw [Node.sizeList]
      rcases List.mem_cons.mp hc with rfl | hmem
      · omega
      · have := size_le_sizeList rest c hmem
        omega

theorem sizeList_childrenOf_lt : ∀ n : Node, Node.sizeList (childrenOf n) < Node.size n
  | .text _ => by rw [childrenOf, Node.sizeList, Node.size]; omega
  | .elem _ _ cs => by rw [childrenOf, Node.size]; omega

mutual
theorem size_lt_of_mem_findAllSelf (p : String → Bool) :
    (n : Node) → ∀ x ∈ findAllSelf p n, Node.size x ≤ Node.size n
  | .text _, x, hx => by rw [findAllSelf] at hx; exact absurd hx (by simp)
  | .elem t a cs, x, hx => by
      rw [findAllSelf] at hx
      rw [List.mem_append] at hx
      rcases hx with hx | hx
      · rcases Bool.eq_false_or_eq_true (p t) with hp | hp <;> simp [hp] at hx
        subst hx
        exact le_refl _
      · have h1 := size_lt_of_mem_findAllList p cs x hx
        have h2 : Node.size (Node.elem t a cs) = 1 + Node.sizeList cs := rfl
        omega
theorem size_lt_of_mem_findAllList (p : String → Bool) :
    (cs : List Node) → ∀ x ∈ findAllList p cs, Node.size x ≤ Node.sizeList cs
  | c :: rest, x, hx => by
      rw [findAllList, List.mem_append] at hx
      rw [Node.sizeList]
      rcases hx with hx | hx
      · have := size_lt_of_mem_findAllSelf p c x hx
        omega
      · have := size_lt_of_mem_findAllList p rest x hx
        omega
end

theorem size_lt_of_mem_findAllDesc (p : String → Bool) :
    ∀ n : Node, ∀ x ∈ findAllDesc p n, Node.size x < Node.size n
  | .text _, x, hx => by rw [findAllDesc] at hx; exact absurd hx (by simp)
  | .elem t a cs, x, hx => by
      rw [findAllDesc] at hx
      have h1 := size_lt_of_mem_findAllList p cs x hx
      have h2 : Node.size (Node.elem t a cs) = 1 + Node.sizeList cs := rfl
      omega

theorem flatMap_congr_mem {α β : Type} (F G : α → List β) :
    (l : List α) → (∀ x ∈ l, F x = G x) → l.flatMap F = l.flatMap G
  | [], _ => rfl
  | a :: t, h => by
      rw [List.flatMap_cons, List.flatMap_cons, h a (by simp),
        flatMap_congr_mem F G t (fun x hx => h x (by simp [hx]))]

theorem filterMap_congr_mem {α β : Type} (F G : α → Option β) :
    (l : List α) → (∀ x ∈ l, F x = G x) → l.filterMap F = l.filterMap G
  | [], _ => rfl
  | a :: t, h => by
      rw [List.filterMap_cons, List.filterMap_cons, h a (by simp),
        filterMap_congr_mem F G t (fun x hx => h x (by simp [hx]))]

theorem opt_row_congr {M Mg : List String} {sep : String} (h : M = Mg) :
    (if M.isEmpty = true then none else some (sep ++ String.intercalate sep M ++ sep))
      = (if Mg.isEmpty = true then none
         else some (sep ++ String.intercalate sep Mg ++ sep)) := by
  rw [h]

theorem opt_flat_congr {M Mg : List String} {b : Bool} (h : M = Mg) :
    (if M.isEmpty = true then none
     else if b = true then some ("||" ++ String.intercalate "||" M ++ "||")
     else some ("|" ++ String.intercalate "|" M ++ "|"))
      = (if Mg.isEmpty = true then none
     else if b = true then some ("||" ++ String.intercalate "||" Mg ++ "||")
     else some ("|" ++ String.intercalate "|" Mg ++ "|")) := by
  rw [h]

theorem processTable_eq_rows (f : Nat) (t : Node) :
    processTable (f + 1) t
      = if (tableRowsD f t).isEmpty then ""
        else String.intercalate "\n" (tableRowsD f t) ++ "\n\n" := rfl

mutual
theorem peStable : (e : Node) → (lt : Option Char) → (lvl : Nat) → (f g : Nat) →
    2 * Node.size e ≤ f → 2 * Node.size e ≤ g →
    processElement f lt lvl e = processElement g lt lvl e
  | e, lt, lvl, 0, g, hf, hg => absurd hf (by have := Node.size_pos e; omega)
  | e, lt, lvl, f1 + 1, 0, hf, hg => absurd hg (by have := Node.size_pos e; omega)
  | .text s, lt, lvl, f1 + 1, g1 + 1, hf, hg => by simp only [processElement]
  | .elem tag attrs children, lt, lvl, f1 + 1, g1 + 1, hf, hg => by
      have hL : Node.size (Node.elem tag attrs children) = 1 + Node.sizeList children := rfl
      have hmapD : List.map (fun c => processElement f1 none 0 c) children
          = List.map (fun c => processElement g1 none 0 c) children := by
        apply List.map_congr_left
        intro c hc
        have h1 := size_le_sizeList children c hc
        exact peStable c none 0 f1 g1 (by omega) (by omega)
      have hmapT : List.map (fun c => processElement f1 lt lvl c) children
          = List.map (fun c => processElement g1 lt lvl c) children := by
        apply List.map_congr_left
        intro c hc
        have h1 := size_le_sizeList children c hc
        exact peStable c lt lvl f1 g1 (by omega) (by omega)
      have hul : List.map (fun c =>
            if nodeName c = some "li" then processListItem f1 '*' lvl c else "") children
          = List.map (fun c =>
            if nodeName c = some "li" then processListItem g1 '*' lvl c else "") children := by
        apply List.map_congr_left
        intro c hc
        have h1 := size_le_sizeList children c hc
        by_cases hli : nodeName c = some "li"
        · rw [if_pos hli, if_pos hli, pliStable c '*' lvl f1 g1 (by omega) (by omega)]
        · rw [if_neg hli, if_neg hli]
      have hol : List.map (fun c =>
            if nodeName c = some "li" then processListItem f1 '#' lvl c else "") children
          = List.map (fun c =>
            if nodeName c = some "li" then processListItem g1 '#' lvl c else "") children := by
        apply List.map_congr_left
        intro c hc
        have h1 := size_le_sizeList children c hc
        by_cases hli : nodeName c = some "li"
        · rw [if_pos hli, if_pos hli, pliStable c '#' lvl f1 g1 (by omega) (by omega)]
        · rw [if_neg hli, if_neg hli]
      have htab : processTable f1 (Node.elem tag attrs children)
          = processTable g1 (Node.elem tag attrs children) :=
        ptabStable (Node.elem tag attrs children) f1 g1 (by omega) (by omega)
      simp only [processElement]
      rw [hmapD, hmapT, hul, hol, htab]
  termination_by e _ _ f _ _ _ => (Node.size e, 1, f)

theorem pliStable : (li : Node) → (marker : Char) → (lvl : Nat) → (f g : Nat) →
    2 * Node.size li ≤ f → 2 * Node.size li ≤ g →
    processListItem f marker lvl li = processListItem g marker lvl li
  | li, marker, lvl, 0, g, hf, hg => absurd hf (by have := Node.size_pos li; omega)
  | li, marker, lvl, f1 + 1, 0, hf, hg => absurd hg (by have := Node.size_pos li; omega)
  | li, marker, lvl, f1 + 1, g1 + 1, hf, hg => by
      have hch := sizeList_childrenOf_lt li
      have hparts : List.map (fun child =>
            if nodeName child = some "ul" then
              String.join (((childrenOf child).filter
                  (fun n => nodeName n = some "li")).map
                (fun nested => "\n" ++ processListItem f1 '*' (lvl + 1) nested))
            else if nodeName child = some "ol" then
              String.join (((childrenOf child).filter
                  (fun n => nodeName n = some "li")).map
                (fun nested => "\n" ++ processListItem f1 '#' (lvl + 1) nested))
            else processElement f1 (some marker) lvl child) (childrenOf li)
          = List.map (fun child =>
            if nodeName child = some "ul" then
              String.join (((childrenOf child).filter
                  (fun n => nodeName n = some "li")).map
                (fun nested => "\n" ++ processListItem g1 '*' (lvl + 1) nested))
            else if nodeName child = some "ol" then
              String.join (((childrenOf child).filter
                  (fun n => nodeName n = some "li")).map
                (fun nested => "\n" ++ processListItem g1 '#' (lvl + 1) nested))
            else processElement g1 (some marker) lvl child) (childrenOf li) := by
        apply List.map_congr_left
        intro child hc
        have h1 := size_le_sizeList (childrenOf li) child hc
        have h2 := sizeList_childrenOf_lt child
        by_cases hu : nodeName child = some "ul"
        · rw [if_pos hu, if_pos hu]
          congr 1
          apply List.map_congr_left
          intro nested hn
          have hn1 := (List.mem_filter.mp hn).1
          have hn2 := size_le_sizeList (childrenOf child) nested hn1
          rw [pliStable nested '*' (lvl + 1) f1 g1 (by omega) (by omega)]
        · rw [if_neg hu, if_neg hu]
          by_cases ho : nodeName child = some "ol"
          · rw [if_pos ho, if_pos ho]
            congr 1
            apply List.map_congr_left
            intro nested hn
            have hn1 := (List.mem_filter.mp hn).1
            have hn2 := size_le_sizeList (childrenOf child) nested hn1
            rw [pliStable nested '#' (lvl + 1) f1 g1 (by omega) (by omega)]
          · rw [if_neg ho, if_neg ho]
            exact peStable child (some marker) lvl f1 g1 (by omega) (by omega)
      simp only [processListItem]
      rw [hparts]
  termination_by li _ _ f _ _ _ => (Node.size li, 1, f)

theorem ptabStable : (t : Node) → (f g : Nat) →
    2 * Node.size t ≤ f + 1 → 2 * Node.size t ≤ g + 1 →
    processTable f t = processTable g t
  | t, 0, g, hf, hg => absurd hf (by have := Node.size_pos t; omega)
  | t, f1 + 1, 0, hf, hg => absurd hg (by have := Node.size_pos t; omega)
  | t, f1 + 1, g1 + 1, hf, hg => by
      have hH : headerRowsD f1 t = headerRowsD g1 t := by
        unfold headerRowsD
        apply flatMap_congr_mem
        intro sec hsec
        apply filterMap_congr_mem
        intro tr htr
        have hs1 := size_lt_of_mem_findAllDesc _ t sec hsec
        have hs2 := size_lt_of_mem_findAllDesc _ sec tr htr
        apply opt_row_congr
        apply List.map_congr_left
        intro cell hcell
        have hs3 := size_lt_of_mem_findAllDesc _ tr cell hcell
        unfold renderCellNode
        congr 1
        congr 1
        apply List.map_congr_left
        intro c hc
        have h1 := size_le_sizeList (childrenOf cell) c hc
        have h2 := sizeList_childrenOf_lt cell
        exact peStable c none 0 f1 g1 (by omega) (by omega)
      have hB : bodyRowsD f1 t = bodyRowsD g1 t := by
        unfold bodyRowsD
        apply flatMap_congr_mem
        intro sec hsec
        apply filterMap_congr_mem
        intro tr htr
        have hs1 := size_lt_of_mem_findAllDesc _ t sec hsec
        have hs2 := size_lt_of_mem_findAllDesc _ sec tr htr
        apply opt_row_congr
        apply List.map_congr_left
        intro cell hcell
        have hs3 := size_lt_of_mem_findAllDesc _ tr cell hcell
        unfold renderCellNode
        congr 1
        congr 1
        apply List.map_congr_left
        intro c hc
        have h1 := size_le_sizeList (childrenOf cell) c hc
        have h2 := sizeList_childrenOf_lt cell
        exact peStable c none 0 f1 g1 (by omega) (by omega)
      have hF : flatRowsD f1 t = flatRowsD g1 t := by
        unfold flatRowsD
        apply filterMap_congr_mem
        intro tr htr
        have htr1 := (List.mem_filter.mp htr).1
        have hs1 : Node.size tr < Node.size t := by
          have := size_le_sizeList (childrenOf t) tr htr1
          have := sizeList_childrenOf_lt t
          omega
        apply opt_flat_congr
        apply List.map_congr_left
        intro cell hcell
        have hs3 := size_lt_of_mem_findAllDesc _ tr cell hcell
        unfold renderCellNode
        congr 1
        congr 1
        apply List.map_congr_left
        intro c hc
        have h1 := size_le_sizeList (childrenOf cell) c hc
        have h2 := sizeList_childrenOf_lt cell
        exact peStable c none 0 f1 g1 (by omega) (by omega)
      rw [processTable_eq_rows f1 t, processTable_eq_rows g1 t,
        show tableRowsD f1 t = tableRowsD g1 t by
          unfold tableRowsD
          rw [hH, hB, hF]]
  termination_by t f _ _ _ => (Node.size t, 0, f)
end

/-- The walk is fuel-stable: any fuel of at least twice the tree size gives
the same result as the wrapper's provisioned fuel. -/
theorem processElement_fuel_sufficient (root : Node) (lt : Option Char) (lvl g : Nat)
    (hg : 2 * Node.size root ≤ g) :
    processElement g lt lvl root = processElement (fuelFor root) lt lvl root :=
  peStable root lt lvl g (fuelFor root) hg (by unfold fuelFor; omega)

/-! ## Claim C1 (stated after the fuel-stability results it builds on) -/

/-- C1: for every parsed input tree, `html_to_jira_markup` returns the
rendered-tree output post-processed by first collapsing every run of three
or more consecutive newlines to exactly two and then stripping leading and
trailing whitespace; consequently the returned string contains no run of
three or more consecutive newlines and neither begins nor ends with
whitespace.  The wrapper's provisioned fuel is sufficient: any fuel of at
least twice the tree's size renders the same tree output. -/
theorem conv_output_postprocessed (root : Node) :
    html_to_jira_markup root
      = pyStrip (collapseNewlines (processElement (fuelFor root) none 0 root))
    ∧ hasTripleNL (html_to_jira_markup root).data = false
    ∧ headOK (html_to_jira_markup root).data = true
    ∧ lastOK (html_to_jira_markup root).data = true
    ∧ (∀ g, 2 * Node.size root ≤ g →
        processElement g none 0 root = processElement (fuelFor root) none 0 root) := by
  refine ⟨rfl, ?_, ?_, ?_, ?_⟩
  · show hasTripleNL
      (stripChars (collapseAux (processElement (fuelFor root) none 0 root).data 0)) = false
    exact hasTripleNL_stripChars _ (collapseAux_noTriple _ 0)
  · exact headOK_stripChars _
  · exact lastOK_stripChars _
  · intro g hg
    exact processElement_fuel_sufficient root none 0 g hg

/-- Witness for C1 at a concrete one-paragraph document and a concrete
ample fuel. -/
theorem conv_output_postprocessed_witness :
    2 * Node.size (Node.elem "[document]" [] [.elem "p" [] [.text "hi"]]) ≤ 100
    ∧ processElement 100 none 0 (.elem "[document]" [] [.elem "p" [] [.text "hi"]])
        = processElement (fuelFor (.elem "[document]" [] [.elem "p" [] [.text "hi"]]))
            none 0 (.elem "[document]" [] [.elem "p" [] [.text "hi"]]) :=
  ⟨by decide,
   (conv_output_postprocessed (.elem "[document]" [] [.elem "p" [] [.text "hi"]])).2.2.2.2
     100 (by decide)⟩
